import Mathlib

/-!
# Protected-mode bootstrap of mbr2gpt (`src/bbp/boot/main32.c`)

A shallow embedding of the memory-map normaliser (`sort_e820`, `get_ram`) and of the
page-table builder (`setup_pages`, `mem_set`), followed by the properties proved about them.

Conventions of the embedding.

* Machine integers are natural numbers; a reduction `% 2 ^ w` is written wherever a value is
  stored into (or computed in) a `w`-bit type and could exceed it.
* The target is the 32-bit protected-mode stage: pointers and `size_t` are 32 bits wide, and
  `(uint32)ptr` is the identity on a pointer.
* Physical memory is a map from byte addresses to byte values; a `pm_t` is eight bytes,
  little-endian.
* `main32.h` and `config.h` are not part of the sources at hand.  What is needed of them
  (`PT_LOC`, `PAGE_MASK`, the layout of `pm_t`, `e820entry_t`, `e820map_t`) is either a
  parameter or a definition marked as modelled from the specification.
-/

namespace Mbr2gpt

/-! ## Memory map -/

/-- Modelled from the spec: the record type `e820entry_t` is declared in `main32.h`, which is
missing; the specification gives it as `{ base : u64, length : u64, kind }`. -/
structure e820entry_t where
  base : Nat
  length : Nat
  kind : Nat
deriving DecidableEq

/-- Modelled from the spec: the map type `e820map_t` is declared in `main32.h`, which is
missing; the specification gives it as a count of valid entries followed by the array of
records.  The array is the memory that follows the count, so every index names a slot.  The
count is a 16-bit field: `sort_e820` and `get_ram` both hold it in `uint16` counters. -/
structure e820map_t where
  size : Nat
  entries : Nat → e820entry_t
  size_lt : size < 65536

/-- The valid entries of a map, in slot order: slots `0 .. size - 1`. -/
def valid_entries (m : e820map_t) : List e820entry_t :=
  (List.range m.size).map m.entries

/-- Lines 83-85 of `sort_e820`: exchange slots `i` and `i + 1` through the temporary `e`. -/
def swap_entries (es : Nat → e820entry_t) (i : Nat) : Nat → e820entry_t :=
  let e := es i
  let es1 := Function.update es i (es (i + 1))
  Function.update es1 (i + 1) e

/-- Lines 81-89 of `sort_e820`: the inner `while (i < count - 1)` loop, from the current `i`.
It is entered with `count > 0` only, so `count - 1` does not go below zero. The state is the
entry array and the flag `swapped`. -/
def sort_inner (count : Nat) (i : Nat) (es : Nat → e820entry_t) (swapped : Nat) :
    (Nat → e820entry_t) × Nat :=
  if i < count - 1 then
    if (es i).base > (es (i + 1)).base then
      sort_inner count (i + 1) (swap_entries es i) 1
    else
      sort_inner count (i + 1) es swapped
  else
    (es, swapped)
termination_by count - i

/-- Lines 78-91 of `sort_e820`: the outer `while (count > 0 && swapped)` loop; each round runs
the inner loop from `i = 0` with `swapped = 0` and then decrements `count`. -/
def sort_outer : Nat → (Nat → e820entry_t) → Nat → (Nat → e820entry_t)
  | 0, es, _ => es
  | count + 1, es, swapped =>
    if swapped ≠ 0 then
      let r := sort_inner (count + 1) 0 es 0
      sort_outer count r.1 r.2
    else
      es

/-- The function `sort_e820` (lines 72-92): bubble sort of the valid entries on `base`. -/
def sort_e820 (m : e820map_t) : e820map_t :=
  { m with entries := sort_outer m.size m.entries 1 }

/-- The 64-bit sum `base + length` that `get_ram` compares and stores (lines 102-103). -/
def entry_end (e : e820entry_t) : Nat :=
  (e.base + e.length) % 2 ^ 64

/-- Lines 101-105 of `get_ram`: the `for` loop from the current `i`; `i` stays below the
16-bit `size`, so `i ++` does not wrap. -/
def get_ram_loop (m : e820map_t) (i : Nat) (mem_size : Nat) : Nat :=
  if i < m.size then
    if entry_end (m.entries i) > mem_size then
      get_ram_loop m (i + 1) (entry_end (m.entries i))
    else
      get_ram_loop m (i + 1) mem_size
  else
    mem_size
termination_by m.size - i

/-- The function `get_ram` (lines 98-107). -/
def get_ram (m : e820map_t) : Nat :=
  get_ram_loop m 0 0

/-- The memory map of scenario C of the specification: three regions, out of base order. -/
def scenario_c : e820map_t where
  size := 3
  entries := fun i =>
    [e820entry_t.mk 0x100000 0x7EE0000 1, e820entry_t.mk 0x0 0x9FC00 1,
      e820entry_t.mk 0x100000000 0x10000000 1].getD i (e820entry_t.mk 0 0 0)
  size_lt := by decide

/-! ## Page tables -/

/-- Physical memory: the byte stored at each byte address. -/
abbrev Mem := Nat → Nat

/-- The 64-bit little-endian value held in the eight bytes from address `a`. -/
def read64 (m : Mem) (a : Nat) : Nat :=
  m a + 256 * (m (a + 1) + 256 * (m (a + 2) + 256 * (m (a + 3) + 256 * (m (a + 4) +
    256 * (m (a + 5) + 256 * (m (a + 6) + 256 * m (a + 7)))))))

/-- A 64-bit little-endian store of `v` into the eight bytes from address `a`. -/
def write64 (m : Mem) (a v : Nat) : Mem :=
  fun x => if a ≤ x ∧ x < a + 8 then v / 256 ^ (x - a) % 256 else m x

/-- Modelled from the spec: the constant `PAGE_MASK` is defined in `main32.h`, which is
missing.  The specification has the low 12 bits of an entry as flag bits, masked off the
address before the flags are combined in, and bits 12 and up as the address. -/
def PAGE_MASK : Nat := 0xFFFFFFFFFFFFF000

/-- Lines 64-66 of `mem_set`: `while (len--) *dest++ = val;` with a 32-bit `dest`. -/
def mem_set_loop (val : Nat) : Nat → Nat → Mem → Mem
  | _, 0, m => m
  | dest, len + 1, m => mem_set_loop val ((dest + 1) % 2 ^ 32) len (Function.update m dest val)

/-- The function `mem_set` (lines 63-67); its parameters are `uint8 val`, `uint8 *dest` and
`uint16 len`, and each argument is converted to that type at the call. -/
def mem_set (val dest len : Nat) (m : Mem) : Mem :=
  mem_set_loop (val % 2 ^ 8) (dest % 2 ^ 32) (len % 2 ^ 16) m

/-- The address of `tbl[idx]` for `pm_t *tbl`: 32-bit pointer arithmetic in steps of
`sizeof(pm_t) = 8`. -/
def pm_at (tbl idx : Nat) : Nat :=
  (tbl + 8 * idx) % 2 ^ 32

/-- Modelled from the spec: the union `pm_t` is declared in `main32.h`, which is missing; the
specification has bit 0 of the 8-byte entry as the present flag.  The statement
`e.s.present = 1` on the entry at address `a`. -/
def set_present (m : Mem) (a : Nat) : Mem :=
  write64 m a (read64 m a ||| 1)

/-- Modelled from the spec: the union `pm_t` is declared in `main32.h`, which is missing; the
specification has bit 1 of the 8-byte entry as the writable flag.  The statement
`e.s.writable = 1` on the entry at address `a`. -/
def set_writable (m : Mem) (a : Nat) : Mem :=
  write64 m a (read64 m a ||| 2)

/-- The three statements of every population site, on the entry at address `a`:
`e.raw = ptr & PAGE_MASK; e.s.present = 1; e.s.writable = 1;`. -/
def set_entry (m : Mem) (a ptr : Nat) : Mem :=
  set_writable (set_present (write64 m a (ptr &&& PAGE_MASK)) a) a

/-- Lines 119-122 of `setup_pages`: the local `page_count`. -/
def page_count (ammount : Nat) : Nat :=
  let page_count := ammount / 4096
  if page_count % 4096 > 0 then page_count + 1 else page_count

/-- Lines 124-127 of `setup_pages`: the local `table_count`. -/
def table_count (ammount : Nat) : Nat :=
  let table_count := page_count ammount / 512
  if page_count ammount % 512 > 0 then table_count + 1 else table_count

/-- Lines 129-132 of `setup_pages`: the local `dir_count`. -/
def dir_count (ammount : Nat) : Nat :=
  let dir_count := table_count ammount / 512
  if table_count ammount % 512 > 0 then dir_count + 1 else dir_count

/-- Lines 158-162 of `setup_pages`: the loop over the page entries, from the current `p`. -/
def fill_pml1 (pml1 page_count : Nat) (p : Nat) (m : Mem) : Mem :=
  if p < page_count then
    fill_pml1 pml1 page_count (p + 1) (set_entry m (pm_at pml1 p) ((p * 4096) % 2 ^ 64))
  else
    m
termination_by page_count - p

/-- Lines 163-168 of `setup_pages`: the loop over the directory entries, from the current
`t`; `ptr` is the 64-bit sum of the 32-bit `pml1` and the 64-bit product `8 * 512 * t`. -/
def fill_pml2 (pml1 pml2 table_count : Nat) (t : Nat) (m : Mem) : Mem :=
  if t < table_count then
    let ptr := (pml1 + (8 * 512 * t) % 2 ^ 64) % 2 ^ 64
    fill_pml2 pml1 pml2 table_count (t + 1) (set_entry m (pm_at pml2 t) ptr)
  else
    m
termination_by table_count - t

/-- Lines 169-174 of `setup_pages`: the loop over the directory-pointer entries, from the
current `d`. -/
def fill_pml3 (pml2 pml3 dir_count : Nat) (d : Nat) (m : Mem) : Mem :=
  if d < dir_count then
    let ptr := (pml2 + (8 * 512 * d) % 2 ^ 64) % 2 ^ 64
    fill_pml3 pml2 pml3 dir_count (d + 1) (set_entry m (pm_at pml3 d) ptr)
  else
    m
termination_by dir_count - d

/-- What `setup_pages` writes: the four file-scope table pointers, the exported `pml4_ptr32`,
and physical memory. -/
structure State where
  pml4 : Nat
  pml3 : Nat
  pml2 : Nat
  pml1 : Nat
  pml4_ptr32 : Nat
  mem : Mem

/-- The function `setup_pages` (lines 112-183).  `PT_LOC` is the configured 32-bit physical
address of the tables, defined in `config.h`, which is missing, and so a parameter. -/
def setup_pages (PT_LOC ammount : Nat) (s : State) : State :=
  let pml4 := PT_LOC
  let pml3 := (pml4 + 8 * 512) % 2 ^ 32
  let pml2 := (pml3 + 8 * 512) % 2 ^ 32
  let pml1 := (pml2 + (8 * 512 * (dir_count ammount % 2 ^ 32)) % 2 ^ 32) % 2 ^ 32
  let m1 := mem_set 0 pml4 (8 * 512) s.mem
  let m2 := mem_set 0 pml3 (8 * 512) m1
  let m3 := mem_set 0 pml2 ((8 * 512 * dir_count ammount) % 2 ^ 64) m2
  let m4 := mem_set 0 pml1 ((8 * 512 * table_count ammount) % 2 ^ 64) m3
  let m5 := fill_pml1 pml1 (page_count ammount) 0 m4
  let m6 := fill_pml2 pml1 pml2 (table_count ammount) 0 m5
  let m7 := fill_pml3 pml2 pml3 (dir_count ammount) 0 m6
  let m8 := set_entry m7 (pm_at pml4 0) (pml3 % 2 ^ 64)
  { pml4 := pml4, pml3 := pml3, pml2 := pml2, pml1 := pml1, pml4_ptr32 := pml4, mem := m8 }

/-- The common shape of the three population loops: entry `i` of the table at `tbl` receives
`val i`, for `i` from the current index up to `n`. -/
def fill (tbl n : Nat) (val : Nat → Nat) (i : Nat) (m : Mem) : Mem :=
  if i < n then
    fill tbl n val (i + 1) (set_entry m (pm_at tbl i) (val i))
  else
    m
termination_by n - i

/-- The address field of an entry: the entry with its low 12 bits cleared. -/
def entry_address (e : Nat) : Nat :=
  e / 4096 * 4096

/-- The present flag of an entry: bit 0. -/
@[reducible]
def entry_present (e : Nat) : Prop :=
  e % 2 = 1

/-- The writable flag of an entry: bit 1. -/
@[reducible]
def entry_writable (e : Nat) : Prop :=
  e / 2 % 2 = 1

/-- The four-level walk of the specification for the address `a`, from the root table at
`root`: root slot 0, then the directory-pointer entry `a / 1GB`, the directory entry
`(a / 2MB) mod 512` and the page entry `(a / 4KB) mod 512`, each in the table the entry before
it addresses.  The result lists the four entries read, root first. -/
def walk (m : Mem) (root a : Nat) : Nat × Nat × Nat × Nat :=
  let e4 := read64 m (root + 8 * 0)
  let e3 := read64 m (entry_address e4 + 8 * (a / 2 ^ 30))
  let e2 := read64 m (entry_address e3 + 8 * (a / 2 ^ 21 % 512))
  let e1 := read64 m (entry_address e2 + 8 * (a / 2 ^ 12 % 512))
  (e4, e3, e2, e1)

/-- The memory that `setup_pages` leaves behind when the tables lie below the 4GB line, as a
function of the three counts and of the memory found: the four `mem_set` calls, the three
loops and the root entry, with the table addresses written out from `PT`. -/
def built (PT pc tc dc : Nat) (m : Mem) : Mem :=
  set_entry
    (fill (PT + 4096) dc (fun d => (PT + 8192 + (8 * 512 * d) % 2 ^ 64) % 2 ^ 64) 0
      (fill (PT + 8192) tc (fun t => (PT + 8192 + 4096 * dc + (8 * 512 * t) % 2 ^ 64) % 2 ^ 64) 0
        (fill (PT + 8192 + 4096 * dc) pc (fun p => (p * 4096) % 2 ^ 64) 0
          (mem_set 0 (PT + 8192 + 4096 * dc) (4096 * tc)
            (mem_set 0 (PT + 8192) (4096 * dc)
              (mem_set 0 (PT + 4096) 4096 (mem_set 0 PT 4096 m)))))))
    PT (PT + 4096)

/-- The entry at address `a` is `target` with the two flags: its value is `target ||| 3`, and
its bits 2 to 11 are zero. -/
def entry_is (m : Mem) (a target : Nat) : Prop :=
  read64 m a = target ||| 3 ∧ read64 m a / 4 % 1024 = 0

/-- The byte address `x` lies in the array of `entries` eight-byte entries that starts at
`base`. -/
@[reducible]
def in_array (base entries x : Nat) : Prop :=
  base ≤ x ∧ x < base + 8 * entries

/-- A state whose memory is zero everywhere. -/
def zero_state : State :=
  { pml4 := 0, pml3 := 0, pml2 := 0, pml1 := 0, pml4_ptr32 := 0, mem := fun _ => 0 }

/-- A state whose memory holds the byte `0xFF` everywhere. -/
def stale_state : State :=
  { pml4 := 0, pml3 := 0, pml2 := 0, pml1 := 0, pml4_ptr32 := 0, mem := fun _ => 0xFF }

/-- The memory map of scenario C with the three region kinds left open: the regions at
`0x100000`, `0x0` and `0x100000000`, in that slot order. -/
def scenario_map (k0 k1 k2 : Nat) : e820map_t where
  size := 3
  entries := fun i =>
    [e820entry_t.mk 0x100000 0x7EE0000 k0, e820entry_t.mk 0x0 0x9FC00 k1,
      e820entry_t.mk 0x100000000 0x10000000 k2].getD i (e820entry_t.mk 0 0 0)
  size_lt := by decide

/-- The regions of scenario C in ascending `base` order. -/
def scenario_sorted (k0 k1 k2 : Nat) : e820map_t where
  size := 3
  entries := fun i =>
    [e820entry_t.mk 0x0 0x9FC00 k1, e820entry_t.mk 0x100000 0x7EE0000 k0,
      e820entry_t.mk 0x100000000 0x10000000 k2].getD i (e820entry_t.mk 0 0 0)
  size_lt := by decide

/-- Lines 152-155 of `setup_pages`: the four `mem_set` calls, with the table pointers as
lines 146-149 compute them. -/
def clear_tables (PT_LOC ammount : Nat) (m : Mem) : Mem :=
  let pml4 := PT_LOC
  let pml3 := (pml4 + 8 * 512) % 2 ^ 32
  let pml2 := (pml3 + 8 * 512) % 2 ^ 32
  let pml1 := (pml2 + (8 * 512 * (dir_count ammount % 2 ^ 32)) % 2 ^ 32) % 2 ^ 32
  let m1 := mem_set 0 pml4 (8 * 512) m
  let m2 := mem_set 0 pml3 (8 * 512) m1
  let m3 := mem_set 0 pml2 ((8 * 512 * dir_count ammount) % 2 ^ 64) m2
  mem_set 0 pml1 ((8 * 512 * table_count ammount) % 2 ^ 64) m3

/-- The function `main32` (lines 188-206), without the optional debug output: sort the map,
take its extent, build the tables.  The result is the map and the state left behind. -/
def main32 (PT_LOC : Nat) (mem_map : e820map_t) (s : State) : e820map_t × State :=
  let mem_map1 := sort_e820 mem_map
  let ram_total := get_ram mem_map1
  (mem_map1, setup_pages PT_LOC ram_total s)

/-- The walk for the address `a` passes through present, writable entries only, reads its
last entry at slot `a / 4096` of the page array at `pml1`, and finds there the address of the
4KB frame of `a`. -/
def identity_mapped (m : Mem) (root pml1 a : Nat) : Prop :=
  (entry_present (walk m root a).1 ∧ entry_present (walk m root a).2.1 ∧
    entry_present (walk m root a).2.2.1 ∧ entry_present (walk m root a).2.2.2) ∧
  (entry_writable (walk m root a).1 ∧ entry_writable (walk m root a).2.1 ∧
    entry_writable (walk m root a).2.2.1 ∧ entry_writable (walk m root a).2.2.2) ∧
  entry_address (walk m root a).2.2.1 + 8 * (a / 2 ^ 12 % 512) = pml1 + 8 * (a / 4096) ∧
  entry_address (walk m root a).2.2.2 = a / 4096 * 4096

/-- The array `g` holds, in its first `n` slots, a stable rearrangement of the first `n`
slots of `f`, and agrees with `f` on every other slot. -/
def Reordered (n : Nat) (f g : Nat → e820entry_t) : Prop :=
  List.Perm ((List.range n).map g) ((List.range n).map f) ∧
  (∀ b : Nat, ((List.range n).map g).filter (fun e => decide (e.base = b)) =
    ((List.range n).map f).filter (fun e => decide (e.base = b))) ∧
  ∀ j, n ≤ j → g j = f j

/-- The first `n` slots of `f` are in ascending `base` order, pair by adjacent pair. -/
def Ascending (n : Nat) (f : Nat → e820entry_t) : Prop :=
  ∀ j, j + 1 < n → (f j).base ≤ (f (j + 1)).base

/-- The loop invariant of the outer loop of `sort_e820` at `count`, for a map of `n` valid
entries: the slots from `count` on are in ascending order, and no slot below `count` has a
larger `base` than a slot from `count` on. -/
def Settled (n count : Nat) (f : Nat → e820entry_t) : Prop :=
  (∀ k, count ≤ k → k + 1 < n → (f k).base ≤ (f (k + 1)).base) ∧
  ∀ j k, j < count → count ≤ k → k < n → (f j).base ≤ (f k).base

/-! ## Lemmas on the sort -/

theorem range_split (i n : Nat) (h : i + 1 < n) :
    List.range n = List.range i ++ i :: (i + 1) :: List.range' (i + 2) (n - (i + 2)) := by
  have e : n = (n - (i + 2)) + 2 + i := by omega
  conv_lhs => rw [e]
  rw [List.range_eq_range', List.range_eq_range', ← List.range'_append_1,
    ← List.range'_append_1]
  simp [List.range'_succ]

theorem swap_entries_lo (es : Nat → e820entry_t) (i j : Nat) (h : j < i) :
    swap_entries es i j = es j := by
  have h1 : j ≠ i + 1 := by omega
  have h2 : j ≠ i := by omega
  simp [swap_entries, Function.update, h1, h2]

theorem swap_entries_hi (es : Nat → e820entry_t) (i j : Nat) (h : i + 1 < j) :
    swap_entries es i j = es j := by
  have h1 : j ≠ i + 1 := by omega
  have h2 : j ≠ i := by omega
  simp [swap_entries, Function.update, h1, h2]

theorem swap_entries_left (es : Nat → e820entry_t) (i : Nat) :
    swap_entries es i i = es (i + 1) := by
  simp [swap_entries, Function.update]

theorem swap_entries_right (es : Nat → e820entry_t) (i : Nat) :
    swap_entries es i (i + 1) = es i := by
  simp [swap_entries, Function.update]

theorem map_range_at (es : Nat → e820entry_t) (i n : Nat) (h : i + 1 < n) :
    (List.range n).map es = (List.range i).map es ++
      es i :: es (i + 1) :: (List.range' (i + 2) (n - (i + 2))).map es := by
  rw [range_split i n h]
  simp

theorem map_range_swap (es : Nat → e820entry_t) (i n : Nat) (h : i + 1 < n) :
    (List.range n).map (swap_entries es i) = (List.range i).map es ++
      es (i + 1) :: es i :: (List.range' (i + 2) (n - (i + 2))).map es := by
  rw [range_split i n h]
  simp only [List.map_append, List.map_cons, swap_entries_left, swap_entries_right]
  congr 1
  · apply List.map_congr_left
    intro j hj
    exact swap_entries_lo es i j (by simpa using hj)
  · congr 2
    apply List.map_congr_left
    intro j hj
    have hj2 := (List.mem_range'_1.mp hj).1
    exact swap_entries_hi es i j (by omega)

theorem Reordered.refl (n : Nat) (f : Nat → e820entry_t) : Reordered n f f :=
  ⟨List.Perm.refl _, fun _ => rfl, fun _ _ => rfl⟩

theorem Reordered.trans {n : Nat} {f g k : Nat → e820entry_t}
    (h1 : Reordered n f g) (h2 : Reordered n g k) : Reordered n f k :=
  ⟨h2.1.trans h1.1, fun b => (h2.2.1 b).trans (h1.2.1 b),
    fun j hj => (h2.2.2 j hj).trans (h1.2.2 j hj)⟩

theorem Reordered.swap (n i : Nat) (es : Nat → e820entry_t) (h : i + 1 < n)
    (hgt : (es i).base > (es (i + 1)).base) : Reordered n es (swap_entries es i) := by
  refine ⟨?_, ?_, ?_⟩
  · rw [map_range_swap es i n h, map_range_at es i n h]
    exact List.Perm.append_left _ (List.Perm.swap _ _ _)
  · intro b
    rw [map_range_swap es i n h, map_range_at es i n h]
    simp only [List.filter_append, List.filter_cons]
    by_cases h1 : (es i).base = b
    · have h2 : ¬ (es (i + 1)).base = b := by omega
      simp [h1, h2]
    · simp [h1]
  · intro j hj
    exact swap_entries_hi es i j (by omega)

theorem sort_inner_reordered (n count i : Nat) (es : Nat → e820entry_t) (swapped : Nat)
    (h : count ≤ n) : Reordered n es (sort_inner count i es swapped).1 := by
  rw [sort_inner]
  split_ifs with h1 h2
  · exact (Reordered.swap n i es (by omega) h2).trans
      (sort_inner_reordered n count (i + 1) (swap_entries es i) 1 h)
  · exact sort_inner_reordered n count (i + 1) es swapped h
  · exact Reordered.refl n es
termination_by count - i

theorem sort_outer_reordered (n : Nat) : ∀ (count : Nat) (es : Nat → e820entry_t)
    (swapped : Nat), count ≤ n → Reordered n es (sort_outer count es swapped)
  | 0, es, _, _ => Reordered.refl n es
  | count + 1, es, swapped, h => by
    rw [sort_outer]
    split_ifs with h1
    · exact (sort_inner_reordered n (count + 1) 0 es 0 h).trans
        (sort_outer_reordered n count _ _ (by omega))
    · exact Reordered.refl n es

theorem Reordered.slot {n : Nat} {f g : Nat → e820entry_t} (h : Reordered n f g)
    (j : Nat) (hj : j < n) : ∃ k, k < n ∧ g j = f k := by
  have h1 : g j ∈ (List.range n).map g := List.mem_map.mpr ⟨j, List.mem_range.mpr hj, rfl⟩
  have h2 := h.1.subset h1
  obtain ⟨k, hk, e⟩ := List.mem_map.mp h2
  exact ⟨k, List.mem_range.mp hk, e.symm⟩

/-- One pass of the inner loop carries the largest `base` of the slots below `count` to slot
`count - 1`. -/
theorem sort_inner_top (count i : Nat) (es : Nat → e820entry_t) (swapped : Nat)
    (hi : i < count) (hmax : ∀ j, j ≤ i → (es j).base ≤ (es i).base) :
    ∀ j, j < count → ((sort_inner count i es swapped).1 j).base ≤
      ((sort_inner count i es swapped).1 (count - 1)).base := by
  rw [sort_inner]
  split_ifs with h1 h2
  · apply sort_inner_top count (i + 1) (swap_entries es i) 1 (by omega)
    intro j hj
    rw [swap_entries_right]
    rcases Nat.lt_or_ge j i with h3 | h3
    · rw [swap_entries_lo es i j h3]
      exact hmax j (by omega)
    · rcases Nat.eq_or_lt_of_le h3 with h4 | h4
      · subst h4
        rw [swap_entries_left]
        omega
      · have h5 : j = i + 1 := by omega
        subst h5
        rw [swap_entries_right]
  · apply sort_inner_top count (i + 1) es swapped (by omega)
    intro j hj
    rcases Nat.eq_or_lt_of_le hj with h4 | h4
    · subst h4
      exact Nat.le_refl _
    · have := hmax j (by omega)
      omega
  · intro j hj
    have h3 : count - 1 = i := by omega
    rw [h3]
    exact hmax j (by omega)
termination_by count - i

/-- Once `swapped` is set, the inner loop never clears it. -/
theorem sort_inner_flag (count i : Nat) (es : Nat → e820entry_t) :
    (sort_inner count i es 1).2 ≠ 0 := by
  rw [sort_inner]
  split_ifs with h1 h2
  · exact sort_inner_flag count (i + 1) (swap_entries es i)
  · exact sort_inner_flag count (i + 1) es
  · simp
termination_by count - i

/-- A pass of the inner loop that leaves `swapped` at zero has exchanged nothing, and every
adjacent pair it looked at was in order. -/
theorem sort_inner_clean (count i : Nat) (es : Nat → e820entry_t) (swapped : Nat)
    (h0 : (sort_inner count i es swapped).2 = 0) :
    (sort_inner count i es swapped).1 = es ∧
      ∀ j, i ≤ j → j + 1 < count → (es j).base ≤ (es (j + 1)).base := by
  rw [sort_inner] at h0 ⊢
  split_ifs at h0 ⊢ with h1 h2
  · exfalso
    exact sort_inner_flag count (i + 1) (swap_entries es i) h0
  · obtain ⟨e, hs⟩ := sort_inner_clean count (i + 1) es swapped h0
    refine ⟨e, ?_⟩
    intro j hj1 hj2
    rcases Nat.eq_or_lt_of_le hj1 with h4 | h4
    · subst h4
      omega
    · exact hs j (by omega) hj2
  · refine ⟨rfl, ?_⟩
    intro j hj1 hj2
    omega
termination_by count - i

theorem sort_outer_ascending (n : Nat) : ∀ (count : Nat) (es : Nat → e820entry_t)
    (swapped : Nat), count ≤ n → Settled n count es →
    (swapped = 0 → ∀ j, j + 1 ≤ count → (es j).base ≤ (es (j + 1)).base) →
    Ascending n (sort_outer count es swapped)
  | 0, es, _, _, hS, _ => fun j hj => hS.1 j (Nat.zero_le j) hj
  | count + 1, es, swapped, h, hS, hsw => by
    rw [sort_outer]
    split_ifs with h1
    · have hR := sort_inner_reordered (count + 1) (count + 1) 0 es 0 (Nat.le_refl _)
      have hT := sort_inner_top (count + 1) 0 es 0 (by omega)
        (fun j hj => by
          have : j = 0 := by omega
          subst this
          exact Nat.le_refl _)
      apply sort_outer_ascending n count _ _ (by omega)
      · refine ⟨?_, ?_⟩
        · intro k hk1 hk2
          rw [hR.2.2 (k + 1) (by omega)]
          rcases Nat.eq_or_lt_of_le hk1 with h4 | h4
          · subst h4
            obtain ⟨k2, hk3, e⟩ := hR.slot count (by omega)
            rw [e]
            exact hS.2 k2 (count + 1) hk3 (Nat.le_refl _) hk2
          · rw [hR.2.2 k (by omega)]
            exact hS.1 k (by omega) hk2
        · intro j k hj hk1 hk2
          rcases Nat.eq_or_lt_of_le hk1 with h4 | h4
          · subst h4
            have := hT j (by omega)
            simpa using this
          · rw [hR.2.2 k (by omega)]
            obtain ⟨k2, hk3, e⟩ := hR.slot j (by omega)
            rw [e]
            exact hS.2 k2 k hk3 (by omega) hk2
      · intro h0 j hj
        obtain ⟨e, hs⟩ := sort_inner_clean (count + 1) 0 es 0 h0
        rw [e]
        exact hs j (Nat.zero_le j) (by omega)
    · intro j hj
      rcases Nat.lt_or_ge j (count + 1) with h3 | h3
      · exact hsw (by simpa using h1) j (by omega)
      · exact hS.1 j h3 hj

/-! ## Lemmas on the extent -/

theorem get_ram_loop_ge (m : e820map_t) (i acc : Nat) : acc ≤ get_ram_loop m i acc := by
  rw [get_ram_loop]
  split_ifs with h1 h2
  · have := get_ram_loop_ge m (i + 1) (entry_end (m.entries i))
    omega
  · exact get_ram_loop_ge m (i + 1) acc
  · exact Nat.le_refl _
termination_by m.size - i

theorem get_ram_loop_bound (m : e820map_t) (i acc : Nat) :
    ∀ j, i ≤ j → j < m.size → entry_end (m.entries j) ≤ get_ram_loop m i acc := by
  intro j hj1 hj2
  rw [get_ram_loop]
  split_ifs with h1 h2
  · rcases Nat.eq_or_lt_of_le hj1 with h4 | h4
    · subst h4
      exact get_ram_loop_ge m (i + 1) _
    · exact get_ram_loop_bound m (i + 1) _ j (by omega) hj2
  · rcases Nat.eq_or_lt_of_le hj1 with h4 | h4
    · subst h4
      have := get_ram_loop_ge m (i + 1) acc
      omega
    · exact get_ram_loop_bound m (i + 1) _ j (by omega) hj2
  · omega
termination_by m.size - i

theorem get_ram_loop_attained (m : e820map_t) (i acc : Nat) :
    get_ram_loop m i acc = acc ∨
      ∃ j, i ≤ j ∧ j < m.size ∧ get_ram_loop m i acc = entry_end (m.entries j) := by
  rw [get_ram_loop]
  split_ifs with h1 h2
  · rcases get_ram_loop_attained m (i + 1) (entry_end (m.entries i)) with h3 | ⟨j, h3, h4, h5⟩
    · exact Or.inr ⟨i, Nat.le_refl _, h1, h3⟩
    · exact Or.inr ⟨j, by omega, h4, h5⟩
  · rcases get_ram_loop_attained m (i + 1) acc with h3 | ⟨j, h3, h4, h5⟩
    · exact Or.inl h3
    · exact Or.inr ⟨j, by omega, h4, h5⟩
  · exact Or.inl rfl
termination_by m.size - i

theorem get_ram_loop_fold (m : e820map_t) (i acc : Nat) :
    get_ram_loop m i acc =
      ((List.range' i (m.size - i)).map (fun j => entry_end (m.entries j))).foldl max acc := by
  rw [get_ram_loop]
  split_ifs with h1 h2
  · have e : m.size - i = (m.size - (i + 1)) + 1 := by omega
    rw [e, List.range'_succ, List.map_cons, List.foldl_cons,
      get_ram_loop_fold m (i + 1), Nat.max_eq_right (by omega)]
  · have e : m.size - i = (m.size - (i + 1)) + 1 := by omega
    rw [e, List.range'_succ, List.map_cons, List.foldl_cons,
      get_ram_loop_fold m (i + 1), Nat.max_eq_left (by omega)]
  · have e : m.size - i = 0 := by omega
    rw [e]
    rfl
termination_by m.size - i

/-! ## The memory map: main results -/

/-- C3: after `sort_e820`, every adjacent pair of valid slots `i`, `i + 1 < size` is in
ascending `base` order. -/
theorem sort_e820_ascending (m : e820map_t) (i : Nat) (h : i + 1 < (sort_e820 m).size) :
    ((sort_e820 m).entries i).base ≤ ((sort_e820 m).entries (i + 1)).base := by
  have hA := sort_outer_ascending m.size m.size m.entries 1 (Nat.le_refl _)
    ⟨fun k hk1 hk2 => by omega, fun j k hj hk1 hk2 => by omega⟩
    (fun h1 => by omega)
  exact hA i h

theorem sort_e820_ascending_witness :
    0 + 1 < (sort_e820 scenario_c).size ∧
      ((sort_e820 scenario_c).entries 0).base ≤ ((sort_e820 scenario_c).entries (0 + 1)).base :=
  ⟨by decide, sort_e820_ascending scenario_c 0 (by decide)⟩

/-- C4: `sort_e820` keeps the count of valid entries, and the valid entries after it are a
permutation of the valid entries before it, as whole `(base, length, kind)` records. -/
theorem sort_e820_perm (m : e820map_t) :
    (sort_e820 m).size = m.size ∧
      List.Perm (valid_entries (sort_e820 m)) (valid_entries m) :=
  ⟨rfl, (sort_outer_reordered m.size m.size m.entries 1 (Nat.le_refl _)).1⟩

/-- C7: `sort_e820` is stable: for every value `b`, the valid entries whose `base` is `b`
form the same sequence, in the same order, after the sort as before it. -/
theorem sort_e820_stable (m : e820map_t) (b : Nat) :
    (valid_entries (sort_e820 m)).filter (fun e => decide (e.base = b)) =
      (valid_entries m).filter (fun e => decide (e.base = b)) :=
  (sort_outer_reordered m.size m.size m.entries 1 (Nat.le_refl _)).2.1 b

/-- C5: `get_ram` returns the maximum over the valid entries of the sum `base + length`
taken as a 64-bit value, `(base + length) mod 2^64`: it is the running maximum of these sums
from zero, it bounds the sum of every valid entry, it is the sum of one of them when there is
one, and it is zero when there is none. -/
theorem get_ram_max (m : e820map_t) :
    get_ram m =
        ((valid_entries m).map (fun e => (e.base + e.length) % 2 ^ 64)).foldl max 0 ∧
      (∀ i, i < m.size →
        ((m.entries i).base + (m.entries i).length) % 2 ^ 64 ≤ get_ram m) ∧
      (0 < m.size → ∃ i, i < m.size ∧
        get_ram m = ((m.entries i).base + (m.entries i).length) % 2 ^ 64) ∧
      (m.size = 0 → get_ram m = 0) := by
  have hsum : ∀ e : e820entry_t, entry_end e = (e.base + e.length) % 2 ^ 64 := fun _ => rfl
  refine ⟨?_, ?_, ?_, ?_⟩
  · rw [get_ram, get_ram_loop_fold, valid_entries, List.range_eq_range', List.map_map]
    apply congrArg (fun l => List.foldl max 0 l)
    apply List.map_congr_left
    intro j _
    exact hsum (m.entries j)
  · intro i hi
    rw [← hsum]
    exact get_ram_loop_bound m 0 0 i (Nat.zero_le i) hi
  · intro hpos
    rcases get_ram_loop_attained m 0 0 with h | ⟨j, _, h2, h3⟩
    · refine ⟨0, hpos, ?_⟩
      have := get_ram_loop_bound m 0 0 0 (Nat.le_refl _) hpos
      rw [← hsum]
      rw [get_ram, h] at *
      omega
    · exact ⟨j, h2, by rw [← hsum]; exact h3⟩
  · intro h0
    rcases get_ram_loop_attained m 0 0 with h | ⟨j, _, h2, _⟩
    · exact h
    · omega

theorem get_ram_max_witness :
    0 < scenario_c.size ∧
      (∃ i, i < scenario_c.size ∧ get_ram scenario_c =
        ((scenario_c.entries i).base + (scenario_c.entries i).length) % 2 ^ 64) ∧
      2 < scenario_c.size ∧
      ((scenario_c.entries 2).base + (scenario_c.entries 2).length) % 2 ^ 64 ≤
        get_ram scenario_c :=
  ⟨by decide, (get_ram_max scenario_c).2.2.1 (by decide), by decide,
    (get_ram_max scenario_c).2.1 2 (by decide)⟩

/-! ## Lemmas on memory -/

theorem read64_write64_same (m : Mem) (a v : Nat) :
    read64 (write64 m a v) a = v % 2 ^ 64 := by
  simp [read64, write64]
  omega

theorem write64_outside (m : Mem) (a v x : Nat) (h : x < a ∨ a + 8 ≤ x) :
    write64 m a v x = m x := by
  have : ¬ (a ≤ x ∧ x < a + 8) := by omega
  simp [write64, this]

theorem write64_write64 (m : Mem) (a v w : Nat) :
    write64 (write64 m a v) a w = write64 m a w := by
  funext x
  simp only [write64]
  split_ifs <;> rfl

theorem read64_congr (m k : Mem) (a : Nat) (h : ∀ i, i < 8 → m (a + i) = k (a + i)) :
    read64 m a = read64 k a := by
  have e0 := h 0 (by omega)
  simp only [Nat.add_zero] at e0
  simp [read64, e0, h 1, h 2, h 3, h 4, h 5, h 6, h 7]

theorem land_PAGE_MASK (x : Nat) (h : x < 2 ^ 64) : x &&& PAGE_MASK = x / 4096 * 4096 := by
  apply Nat.eq_of_testBit_eq
  intro i
  have hM : PAGE_MASK = 2 ^ 12 * (2 ^ 52 - 1) := by decide
  have h2 : x / 4096 * 4096 = 2 ^ 12 * (x / 2 ^ 12) := by omega
  rw [Nat.testBit_land, hM, h2, Nat.testBit_mul_pow_two, Nat.testBit_mul_pow_two,
    Nat.testBit_two_pow_sub_one, ← Nat.shiftRight_eq_div_pow, Nat.testBit_shiftRight]
  by_cases h3 : 12 ≤ i
  · by_cases h4 : i - 12 < 52
    · simp [h3, h4]
    · simp [h3, h4]
      apply Nat.testBit_lt_two_pow
      calc x < 2 ^ 64 := h
        _ ≤ 2 ^ i := Nat.pow_le_pow_right (by decide) (by omega)
  · simp [h3]

theorem lor_three (x : Nat) (h : x % 4096 = 0) : x ||| 3 = x + 3 := by
  have e : x = 2 ^ 12 * (x / 4096) := by omega
  rw [e]
  exact (Nat.mul_add_lt_is_or (by decide : 3 < 2 ^ 12) _).symm

/-- The three statements of a population site leave the entry at `a` holding the masked
pointer with the two flags set, and touch no other byte. -/
theorem set_entry_eq (m : Mem) (a ptr : Nat) (h : ptr < 2 ^ 64) :
    set_entry m a ptr = write64 m a (ptr / 4096 * 4096 + 3) := by
  have h1 : ptr / 4096 * 4096 < 2 ^ 64 := by omega
  have h2 : (ptr / 4096 * 4096) ||| 1 < 2 ^ 64 := Nat.or_lt_two_pow h1 (by decide)
  rw [set_entry, set_present, set_writable, read64_write64_same, write64_write64,
    read64_write64_same, write64_write64, land_PAGE_MASK ptr h, Nat.mod_eq_of_lt h1,
    Nat.mod_eq_of_lt h2, Nat.lor_assoc]
  rw [show (1 ||| 2 : Nat) = 3 from rfl, lor_three _ (by omega)]

theorem mem_set_loop_apply (val : Nat) : ∀ (len dest : Nat) (m : Mem) (x : Nat),
    dest + len ≤ 2 ^ 32 →
    mem_set_loop val dest len m x = if dest ≤ x ∧ x < dest + len then val else m x
  | 0, dest, m, x, _ => by
    have : ¬ (dest ≤ x ∧ x < dest + 0) := by omega
    rw [mem_set_loop, if_neg this]
  | len + 1, dest, m, x, h => by
    rw [mem_set_loop]
    rcases Nat.eq_zero_or_pos len with h0 | h0
    · subst h0
      simp only [mem_set_loop, Function.update_apply]
      split_ifs <;> first | rfl | omega
    · rw [Nat.mod_eq_of_lt (by omega), mem_set_loop_apply val len (dest + 1) _ x (by omega)]
      simp only [Function.update_apply]
      split_ifs <;> first | rfl | omega

theorem mem_set_apply (dest len : Nat) (m : Mem) (x : Nat) (hd : dest < 2 ^ 32)
    (h : dest + len % 2 ^ 16 ≤ 2 ^ 32) :
    mem_set 0 dest len m x = if dest ≤ x ∧ x < dest + len % 2 ^ 16 then 0 else m x := by
  rw [mem_set, Nat.mod_eq_of_lt hd]
  exact mem_set_loop_apply _ _ _ _ _ h

theorem set_entry_outside (m : Mem) (a ptr x : Nat) (h : x < a ∨ a + 8 ≤ x) :
    set_entry m a ptr x = m x := by
  simp [set_entry, set_present, set_writable, write64_outside _ _ _ _ h]

theorem read64_set_entry_same (m : Mem) (a ptr : Nat) (h : ptr < 2 ^ 64) :
    read64 (set_entry m a ptr) a = ptr / 4096 * 4096 + 3 := by
  rw [set_entry_eq m a ptr h, read64_write64_same]
  exact Nat.mod_eq_of_lt (by omega)

theorem read64_set_entry_other (m : Mem) (a ptr b : Nat) (h : b + 8 ≤ a ∨ a + 8 ≤ b) :
    read64 (set_entry m a ptr) b = read64 m b := by
  apply read64_congr
  intro i hi
  exact set_entry_outside m a ptr (b + i) (by omega)

/-- The loop writes no byte outside the entries `i .. n - 1` of its table. -/
theorem fill_outside (tbl n : Nat) (val : Nat → Nat) (i : Nat) (m : Mem) (x : Nat)
    (hfit : tbl + 8 * n ≤ 2 ^ 32) (hx : x < tbl + 8 * i ∨ tbl + 8 * n ≤ x) :
    fill tbl n val i m x = m x := by
  rw [fill]
  split_ifs with h1
  · rw [fill_outside tbl n val (i + 1) _ x hfit (by omega)]
    apply set_entry_outside
    rw [pm_at, Nat.mod_eq_of_lt (by omega)]
    omega
  · rfl
termination_by n - i

theorem read64_fill_other (tbl n : Nat) (val : Nat → Nat) (i : Nat) (m : Mem) (b : Nat)
    (hfit : tbl + 8 * n ≤ 2 ^ 32) (hb : b + 8 ≤ tbl + 8 * i ∨ tbl + 8 * n ≤ b) :
    read64 (fill tbl n val i m) b = read64 m b := by
  apply read64_congr
  intro k hk
  exact fill_outside tbl n val i m (b + k) hfit (by omega)

/-- After the loop, entry `q` of the table holds `val q` with its low 12 bits replaced by the
two flags. -/
theorem fill_read (tbl n : Nat) (val : Nat → Nat) (i : Nat) (m : Mem) (q : Nat)
    (hfit : tbl + 8 * n ≤ 2 ^ 32) (hv : val q < 2 ^ 64) (hq : i ≤ q) (hqn : q < n) :
    read64 (fill tbl n val i m) (tbl + 8 * q) = val q / 4096 * 4096 + 3 := by
  rw [fill, if_pos (by omega : i < n)]
  rcases Nat.eq_or_lt_of_le hq with h4 | h4
  · subst h4
    rw [read64_fill_other tbl n val (i + 1) _ _ hfit (by omega), pm_at,
      Nat.mod_eq_of_lt (by omega)]
    exact read64_set_entry_same _ _ _ hv
  · exact fill_read tbl n val (i + 1) _ q hfit hv (by omega) hqn
termination_by n - i

theorem fill_pml1_eq (pml1 n p : Nat) (m : Mem) :
    fill_pml1 pml1 n p m = fill pml1 n (fun p => (p * 4096) % 2 ^ 64) p m := by
  rw [fill_pml1, fill]
  split_ifs with h1
  · exact fill_pml1_eq pml1 n (p + 1) _
  · rfl
termination_by n - p

theorem fill_pml2_eq (pml1 pml2 n t : Nat) (m : Mem) :
    fill_pml2 pml1 pml2 n t m =
      fill pml2 n (fun t => (pml1 + (8 * 512 * t) % 2 ^ 64) % 2 ^ 64) t m := by
  rw [fill_pml2, fill]
  split_ifs with h1
  · exact fill_pml2_eq pml1 pml2 n (t + 1) _
  · rfl
termination_by n - t

theorem fill_pml3_eq (pml2 pml3 n d : Nat) (m : Mem) :
    fill_pml3 pml2 pml3 n d m =
      fill pml3 n (fun d => (pml2 + (8 * 512 * d) % 2 ^ 64) % 2 ^ 64) d m := by
  rw [fill_pml3, fill]
  split_ifs with h1
  · exact fill_pml3_eq pml2 pml3 n (d + 1) _
  · rfl
termination_by n - d

/-! ## Lemmas on the counts -/

theorem page_count_le (R : Nat) (h : R ≤ 2 ^ 39) : page_count R ≤ 2 ^ 27 := by
  unfold page_count
  simp only
  split_ifs <;> omega

theorem table_count_ge (R : Nat) : page_count R ≤ 512 * table_count R := by
  unfold table_count
  simp only
  split_ifs <;> omega

theorem dir_count_ge (R : Nat) : table_count R ≤ 512 * dir_count R := by
  unfold dir_count
  simp only
  split_ifs <;> omega

theorem table_count_le (R : Nat) (h : R ≤ 2 ^ 39) : table_count R ≤ 2 ^ 18 := by
  have := page_count_le R h
  unfold table_count
  simp only
  split_ifs <;> omega

theorem dir_count_le (R : Nat) (h : R ≤ 2 ^ 39) : dir_count R ≤ 512 := by
  have := table_count_le R h
  unfold dir_count
  simp only
  split_ifs <;> omega

/-! ## Lemmas on the tables built -/

theorem setup_pages_mem (PT R : Nat) (s : State)
    (hfit : PT + 8192 + 4096 * dir_count R + 4096 * table_count R < 2 ^ 32) :
    (setup_pages PT R s).mem =
      built PT (page_count R) (table_count R) (dir_count R) s.mem := by
  have e3 : (PT + 8 * 512) % 2 ^ 32 = PT + 4096 := by omega
  have e2 : (PT + 4096 + 8 * 512) % 2 ^ 32 = PT + 8192 := by omega
  have e1 : (PT + 8192 + (8 * 512 * (dir_count R % 2 ^ 32)) % 2 ^ 32) % 2 ^ 32 =
      PT + 8192 + 4096 * dir_count R := by omega
  have e4 : (8 * 512 * dir_count R) % 2 ^ 64 = 4096 * dir_count R := by omega
  have e5 : (8 * 512 * table_count R) % 2 ^ 64 = 4096 * table_count R := by omega
  have e6 : pm_at PT 0 = PT := by
    rw [pm_at]
    omega
  have e7 : (PT + 4096) % 2 ^ 64 = PT + 4096 := by omega
  have e8 : (8 * 512 : Nat) = 4096 := rfl
  simp only [setup_pages, built, e3, e2, e1, e4, e5, e6, e7, e8, fill_pml1_eq, fill_pml2_eq, fill_pml3_eq]

theorem built_pml4 (PT pc tc dc : Nat) (m : Mem) (hal : PT % 4096 = 0)
    (hfit : PT + 8192 + 4096 * dc + 4096 * tc < 2 ^ 32) :
    read64 (built PT pc tc dc m) PT = PT + 4096 + 3 := by
  rw [built, read64_set_entry_same _ _ _ (by omega)]
  omega

theorem built_pml3 (PT pc tc dc : Nat) (m : Mem) (hal : PT % 4096 = 0)
    (hfit : PT + 8192 + 4096 * dc + 4096 * tc < 2 ^ 32) (h3 : dc ≤ 512)
    (d : Nat) (hd : d < dc) :
    read64 (built PT pc tc dc m) (PT + 4096 + 8 * d) = PT + 8192 + 4096 * d + 3 := by
  rw [built, read64_set_entry_other _ _ _ _ (by omega),
    fill_read _ _ _ _ _ _ (by omega) (by omega) (Nat.zero_le _) hd]
  omega

theorem built_pml2 (PT pc tc dc : Nat) (m : Mem) (hal : PT % 4096 = 0)
    (hfit : PT + 8192 + 4096 * dc + 4096 * tc < 2 ^ 32) (h2 : tc ≤ 512 * dc) (h3 : dc ≤ 512)
    (t : Nat) (ht : t < tc) :
    read64 (built PT pc tc dc m) (PT + 8192 + 8 * t) = PT + 8192 + 4096 * dc + 4096 * t + 3 := by
  rw [built, read64_set_entry_other _ _ _ _ (by omega),
    read64_fill_other _ _ _ _ _ _ (by omega) (by omega),
    fill_read _ _ _ _ _ _ (by omega) (by omega) (Nat.zero_le _) ht]
  omega

theorem built_pml1 (PT pc tc dc : Nat) (m : Mem) (hal : PT % 4096 = 0)
    (hfit : PT + 8192 + 4096 * dc + 4096 * tc < 2 ^ 32) (h1 : pc ≤ 512 * tc)
    (h2 : tc ≤ 512 * dc) (h3 : dc ≤ 512) (p : Nat) (hp : p < pc) :
    read64 (built PT pc tc dc m) (PT + 8192 + 4096 * dc + 8 * p) = 4096 * p + 3 := by
  rw [built, read64_set_entry_other _ _ _ _ (by omega),
    read64_fill_other _ _ _ _ _ _ (by omega) (by omega),
    read64_fill_other _ _ _ _ _ _ (by omega) (by omega),
    fill_read _ _ _ _ _ _ (by omega) (by omega) (Nat.zero_le _) hp]
  omega

/-- A byte outside the populated entries holds zero if one of the four `mem_set` calls
reached it, and its initial value otherwise. -/
theorem built_unpopulated (PT pc tc dc : Nat) (m : Mem)
    (hfit : PT + 8192 + 4096 * dc + 4096 * tc < 2 ^ 32) (h1 : pc ≤ 512 * tc)
    (h2 : tc ≤ 512 * dc) (h3 : dc ≤ 512) (x : Nat)
    (hx4 : x < PT ∨ PT + 8 ≤ x)
    (hx3 : x < PT + 4096 ∨ PT + 4096 + 8 * dc ≤ x)
    (hx2 : x < PT + 8192 ∨ PT + 8192 + 8 * tc ≤ x)
    (hx1 : x < PT + 8192 + 4096 * dc ∨ PT + 8192 + 4096 * dc + 8 * pc ≤ x) :
    built PT pc tc dc m x =
      if (PT ≤ x ∧ x < PT + 8192) ∨
          (PT + 8192 ≤ x ∧ x < PT + 8192 + (4096 * dc) % 2 ^ 16) ∨
          (PT + 8192 + 4096 * dc ≤ x ∧ x < PT + 8192 + 4096 * dc + (4096 * tc) % 2 ^ 16)
      then 0 else m x := by
  have q1 := Nat.mod_le (4096 * dc) (2 ^ 16)
  have q2 := Nat.mod_le (4096 * tc) (2 ^ 16)
  rw [built, set_entry_outside _ _ _ _ hx4,
    fill_outside _ _ _ _ _ _ (by omega) (by omega),
    fill_outside _ _ _ _ _ _ (by omega) (by omega),
    fill_outside _ _ _ _ _ _ (by omega) (by omega),
    mem_set_apply _ _ _ _ (by omega) (by omega),
    mem_set_apply _ _ _ _ (by omega) (by omega),
    mem_set_apply _ _ _ _ (by omega) (by omega),
    mem_set_apply _ _ _ _ (by omega) (by omega)]
  have e : (4096 : Nat) % 2 ^ 16 = 4096 := rfl
  rw [e]
  split_ifs <;> first | rfl | omega

theorem setup_pages_ptrs (PT R : Nat) (s : State)
    (hfit : PT + 8192 + 4096 * dir_count R + 4096 * table_count R < 2 ^ 32) :
    (setup_pages PT R s).pml4 = PT ∧ (setup_pages PT R s).pml3 = PT + 4096 ∧
      (setup_pages PT R s).pml2 = PT + 8192 ∧
      (setup_pages PT R s).pml1 = PT + 8192 + 4096 * dir_count R := by
  refine ⟨rfl, ?_, ?_, ?_⟩ <;> simp only [setup_pages] <;> omega

theorem read64_zero (m : Mem) (a : Nat) (h : ∀ i, i < 8 → m (a + i) = 0) : read64 m a = 0 := by
  have e0 := h 0 (by omega)
  simp only [Nat.add_zero] at e0
  simp [read64, e0, h 1, h 2, h 3, h 4, h 5, h 6, h 7]

theorem entry_is_of_read (m : Mem) (a target : Nat) (hal : target % 4096 = 0)
    (h : read64 m a = target + 3) : entry_is m a target := by
  rw [entry_is, h, lor_three target hal]
  exact ⟨rfl, by omega⟩

theorem walk_unmapped_entries (s : State) :
    (walk (setup_pages 0x100000 0x1000001 s).mem 0x100000 0x1000000).2.2.1 = 0 ∧
      (walk (setup_pages 0x100000 0x1000001 s).mem 0x100000 0x1000000).2.2.2 =
        read64 s.mem 0 := by
  have c1 : page_count 0x1000001 = 4096 := by decide
  have c2 : table_count 0x1000001 = 8 := by decide
  have c3 : dir_count 0x1000001 = 1 := by decide
  have hfit : 0x100000 + 8192 + 4096 * dir_count 0x1000001 + 4096 * table_count 0x1000001
      < 2 ^ 32 := by
    rw [c2, c3]
    decide
  rw [setup_pages_mem _ _ s hfit, c1, c2, c3]
  have e4 : read64 (built 0x100000 4096 8 1 s.mem) (0x100000 + 8 * 0) = 0x100000 + 4096 + 3 :=
    built_pml4 0x100000 4096 8 1 s.mem (by decide) (by decide)
  have e3 : read64 (built 0x100000 4096 8 1 s.mem) (0x100000 + 4096 + 8 * (0x1000000 / 2 ^ 30))
      = 0x100000 + 8192 + 4096 * 0 + 3 :=
    built_pml3 0x100000 4096 8 1 s.mem (by decide) (by decide) (by decide) 0 (by decide)
  have e2 : read64 (built 0x100000 4096 8 1 s.mem)
      (0x100000 + 8192 + 8 * (0x1000000 / 2 ^ 21 % 512)) = 0 := by
    apply read64_zero
    intro i hi
    rw [built_unpopulated _ _ _ _ _ (by decide) (by decide) (by decide) (by decide) _
      (by omega) (by omega) (by omega) (by omega)]
    rw [if_pos (by omega)]
  have e1 : read64 (built 0x100000 4096 8 1 s.mem) (0 + 8 * (0x1000000 / 2 ^ 12 % 512))
      = read64 s.mem 0 := by
    apply read64_congr
    intro i hi
    rw [built_unpopulated _ _ _ _ _ (by decide) (by decide) (by decide) (by decide) _
      (by omega) (by omega) (by omega) (by omega)]
    rw [if_neg (by omega)]
  have a4 : entry_address (0x100000 + 4096 + 3) = 0x100000 + 4096 := by decide
  have a3 : entry_address (0x100000 + 8192 + 4096 * 0 + 3) = 0x100000 + 8192 := by decide
  have a2 : entry_address 0 = 0 := by decide
  simp only [walk]
  rw [e4, a4, e3, a3, e2, a2, e1]
  exact ⟨rfl, rfl⟩


/-! ## The page tables: main results -/

/-- C2: the local `page_count` of `setup_pages` is not the ceiling of `RamExtent / 4096`: the
test on line 120 takes the remainder of the quotient, so that an extent of 1 byte gets no
page (the lower bound `page_count * 4096 >= R` fails) and an extent of 4096 bytes gets two
(the upper bound `page_count * 4096 < R + 4096` fails). -/
theorem page_count_not_ceil :
    page_count 1 = 0 ∧ ¬ (page_count 1 * 4096 ≥ 1) ∧
      page_count 4096 = 2 ∧ ¬ (page_count 4096 * 4096 < 4096 + 4096) := by
  decide

/-- C8: for every extent, `table_count` is the ceiling of `page_count / 512` and `dir_count`
the ceiling of `table_count / 512`: each count times 512 reaches the count below it, and when
that one is positive, one unit less does not. -/
theorem table_dir_count_ceil (R : Nat) :
    table_count R = (page_count R + 511) / 512 ∧
      page_count R ≤ table_count R * 512 ∧
      (0 < page_count R → (table_count R - 1) * 512 < page_count R) ∧
      dir_count R = (table_count R + 511) / 512 ∧
      table_count R ≤ dir_count R * 512 ∧
      (0 < table_count R → (dir_count R - 1) * 512 < table_count R) := by
  have e1 : table_count R = (page_count R + 511) / 512 := by
    unfold table_count
    simp only
    split_ifs <;> omega
  have e2 : dir_count R = (table_count R + 511) / 512 := by
    unfold dir_count
    simp only
    split_ifs <;> omega
  refine ⟨e1, ?_, ?_, e2, ?_, ?_⟩ <;> omega

theorem table_dir_count_ceil_witness :
    0 < page_count 268435456 ∧ (table_count 268435456 - 1) * 512 < page_count 268435456 ∧
      0 < table_count 268435456 ∧ (dir_count 268435456 - 1) * 512 < table_count 268435456 :=
  ⟨by decide, (table_dir_count_ceil 268435456).2.2.1 (by decide),
    by decide, (table_dir_count_ceil 268435456).2.2.2.2.2 (by decide)⟩


/-- C9: with the tables below the 4GB line at a 4KB-aligned `PT_LOC` and an extent of at most
512GB, every populated entry ends as its target address or-ed with 3, bits 2 to 11 zero:
page entry `p` targets `p * 4096`, directory entry `t` the `t`-th 4KB block of the page array,
directory-pointer entry `d` the `d`-th 4KB block of the directory array, and root slot 0 the
directory-pointer array. -/
theorem setup_pages_entries (PT R : Nat) (s : State) (hal : PT % 4096 = 0)
    (hfit : PT + 8192 + 4096 * dir_count R + 4096 * table_count R < 2 ^ 32)
    (hR : R ≤ 2 ^ 39) :
    (∀ p, p < page_count R →
      entry_is (setup_pages PT R s).mem ((setup_pages PT R s).pml1 + 8 * p) (p * 4096)) ∧
    (∀ t, t < table_count R →
      entry_is (setup_pages PT R s).mem ((setup_pages PT R s).pml2 + 8 * t)
        ((setup_pages PT R s).pml1 + 4096 * t)) ∧
    (∀ d, d < dir_count R →
      entry_is (setup_pages PT R s).mem ((setup_pages PT R s).pml3 + 8 * d)
        ((setup_pages PT R s).pml2 + 4096 * d)) ∧
    entry_is (setup_pages PT R s).mem (setup_pages PT R s).pml4 (setup_pages PT R s).pml3 := by
  obtain ⟨p4, p3, p2, p1⟩ := setup_pages_ptrs PT R s hfit
  have h1 := table_count_ge R
  have h2 := dir_count_ge R
  have h3 := dir_count_le R hR
  rw [p4, p3, p2, p1, setup_pages_mem PT R s hfit]
  refine ⟨?_, ?_, ?_, ?_⟩
  · intro p hp
    apply entry_is_of_read _ _ _ (by omega)
    rw [built_pml1 PT _ _ _ s.mem hal hfit h1 h2 h3 p hp]
    omega
  · intro t ht
    apply entry_is_of_read _ _ _ (by omega)
    rw [built_pml2 PT _ _ _ s.mem hal hfit h2 h3 t ht]
  · intro d hd
    apply entry_is_of_read _ _ _ (by omega)
    rw [built_pml3 PT _ _ _ s.mem hal hfit h3 d hd]
  · apply entry_is_of_read _ _ _ (by omega)
    rw [built_pml4 PT _ _ _ s.mem hal hfit]


theorem setup_pages_entries_witness :
    (0x100000 % 4096 = 0 ∧
      0x100000 + 8192 + 4096 * dir_count 268435456 + 4096 * table_count 268435456 < 2 ^ 32 ∧
      268435456 ≤ 2 ^ 39) ∧
    entry_is (setup_pages 0x100000 268435456 zero_state).mem
      (setup_pages 0x100000 268435456 zero_state).pml4
      (setup_pages 0x100000 268435456 zero_state).pml3 :=
  ⟨⟨by decide, by decide, by decide⟩,
    (setup_pages_entries 0x100000 268435456 zero_state (by decide) (by decide)
      (by decide)).2.2.2⟩

/-- C10: with the tables below the 4GB line, `setup_pages` puts the root array at `PT_LOC`,
the directory-pointer array at `PT_LOC + 4096`, the directory array at `PT_LOC + 8192` and the
page array at `PT_LOC + 8192 + 4096 * dir_count`; each array starts where the one before it
(of 512, 512 and `512 * dir_count` entries) ends, and no byte lies in two of the four. -/
theorem setup_pages_placement (PT R : Nat) (s : State)
    (hfit : PT + 8192 + 4096 * dir_count R + 4096 * table_count R < 2 ^ 32) :
    ((setup_pages PT R s).pml4 = PT ∧ (setup_pages PT R s).pml3 = PT + 4096 ∧
      (setup_pages PT R s).pml2 = PT + 8192 ∧
      (setup_pages PT R s).pml1 = PT + 8192 + 4096 * dir_count R) ∧
    ((setup_pages PT R s).pml4 + 8 * 512 = (setup_pages PT R s).pml3 ∧
      (setup_pages PT R s).pml3 + 8 * 512 = (setup_pages PT R s).pml2 ∧
      (setup_pages PT R s).pml2 + 8 * (512 * dir_count R) = (setup_pages PT R s).pml1) ∧
    ∀ x,
      ¬ (in_array (setup_pages PT R s).pml4 512 x ∧ in_array (setup_pages PT R s).pml3 512 x) ∧
      ¬ (in_array (setup_pages PT R s).pml4 512 x ∧
        in_array (setup_pages PT R s).pml2 (512 * dir_count R) x) ∧
      ¬ (in_array (setup_pages PT R s).pml4 512 x ∧
        in_array (setup_pages PT R s).pml1 (512 * table_count R) x) ∧
      ¬ (in_array (setup_pages PT R s).pml3 512 x ∧
        in_array (setup_pages PT R s).pml2 (512 * dir_count R) x) ∧
      ¬ (in_array (setup_pages PT R s).pml3 512 x ∧
        in_array (setup_pages PT R s).pml1 (512 * table_count R) x) ∧
      ¬ (in_array (setup_pages PT R s).pml2 (512 * dir_count R) x ∧
        in_array (setup_pages PT R s).pml1 (512 * table_count R) x) := by
  obtain ⟨p4, p3, p2, p1⟩ := setup_pages_ptrs PT R s hfit
  rw [p4, p3, p2, p1]
  refine ⟨⟨rfl, rfl, rfl, rfl⟩, ⟨by omega, by omega, by omega⟩, ?_⟩
  intro x
  simp only [in_array]
  refine ⟨?_, ?_, ?_, ?_, ?_, ?_⟩ <;> omega

theorem setup_pages_placement_witness :
    0x100000 + 8192 + 4096 * dir_count 2147483648 + 4096 * table_count 2147483648 < 2 ^ 32 ∧
      (setup_pages 0x100000 2147483648 zero_state).pml4 = 0x100000 ∧
      (setup_pages 0x100000 2147483648 zero_state).pml3 = 0x100000 + 4096 ∧
      (setup_pages 0x100000 2147483648 zero_state).pml2 = 0x100000 + 8192 ∧
      (setup_pages 0x100000 2147483648 zero_state).pml1 =
        0x100000 + 8192 + 4096 * dir_count 2147483648 :=
  ⟨by decide, (setup_pages_placement 0x100000 2147483648 zero_state (by decide)).1⟩

/-- C1: identity mapping is not complete.  For an extent of 16MB and one byte, with the
tables at `0x100000`, the address `0x1000000` lies below the extent, yet the walk for it reads
a zero directory entry whatever memory held before; on memory that was zero the page entry it
ends at is zero too, so neither present nor writable, and its address is not `0x1000000`. -/
theorem walk_not_complete :
    0x1000000 < 0x1000001 ∧ 0x1000001 ≤ 2 ^ 39 ∧ 0x100000 % 4096 = 0 ∧
      (∀ s : State,
        (walk (setup_pages 0x100000 0x1000001 s).mem 0x100000 0x1000000).2.2.1 = 0) ∧
      ¬ entry_present
        (walk (setup_pages 0x100000 0x1000001 zero_state).mem 0x100000 0x1000000).2.2.2 ∧
      ¬ entry_writable
        (walk (setup_pages 0x100000 0x1000001 zero_state).mem 0x100000 0x1000000).2.2.2 ∧
      entry_address
        (walk (setup_pages 0x100000 0x1000001 zero_state).mem 0x100000 0x1000000).2.2.2 ≠
        0x1000000 / 4096 * 4096 := by
  have h0 : (walk (setup_pages 0x100000 0x1000001 zero_state).mem 0x100000 0x1000000).2.2.2
      = 0 := by
    rw [(walk_unmapped_entries zero_state).2]
    rfl
  rw [h0]
  refine ⟨by decide, by decide, by decide, fun s => (walk_unmapped_entries s).1, ?_, ?_,
    by decide⟩
  · decide
  · decide

/-- C6: zero-initialisation is not complete.  For an extent of `0x2001001` bytes, with the
tables at `0x100000`, the counts are 8194 pages in 17 tables; `mem_set` receives the length
`4096 * 17` as a 16-bit value, 4096, and clears the first table only.  Page entry 8194 lies in
the page array, is not populated, and still holds the bytes found there. -/
theorem stale_entry_survives :
    page_count 0x2001001 = 8194 ∧ table_count 0x2001001 = 17 ∧ dir_count 0x2001001 = 1 ∧
      0x2001001 ≤ 2 ^ 39 ∧ 8194 < 512 * 17 ∧
      read64 (setup_pages 0x100000 0x2001001 stale_state).mem
        ((setup_pages 0x100000 0x2001001 stale_state).pml1 + 8 * 8194) =
        0xFFFFFFFFFFFFFFFF := by
  have c1 : page_count 0x2001001 = 8194 := by decide
  have c2 : table_count 0x2001001 = 17 := by decide
  have c3 : dir_count 0x2001001 = 1 := by decide
  have hfit : 0x100000 + 8192 + 4096 * dir_count 0x2001001 + 4096 * table_count 0x2001001
      < 2 ^ 32 := by
    rw [c2, c3]
    decide
  refine ⟨c1, c2, c3, by decide, by decide, ?_⟩
  rw [(setup_pages_ptrs _ _ _ hfit).2.2.2, setup_pages_mem _ _ _ hfit, c1, c2, c3]
  have e : read64 (built 0x100000 8194 17 1 stale_state.mem) (0x100000 + 8192 + 4096 * 1 +
      8 * 8194) = read64 stale_state.mem (0x100000 + 8192 + 4096 * 1 + 8 * 8194) := by
    apply read64_congr
    intro i hi
    rw [built_unpopulated _ _ _ _ _ (by decide) (by decide) (by decide) (by decide) _
      (by omega) (by omega) (by omega) (by omega)]
    rw [if_neg (by omega)]
  rw [e]
  rfl

/-! ## Further lemmas on the memory map -/

theorem get_ram_eq_fold (m : e820map_t) :
    get_ram m = ((valid_entries m).map entry_end).foldl max 0 := by
  rw [get_ram, get_ram_loop_fold, valid_entries, List.range_eq_range']
  simp [List.map_map, Function.comp_def]

theorem foldl_max_perm {l1 l2 : List Nat} (h : List.Perm l1 l2) (b : Nat) :
    l1.foldl max b = l2.foldl max b := by
  apply List.Perm.foldl_eq' h
  intro x _ y _ z
  omega

/-- A pass of the inner loop over slots that are already in order changes neither the array
nor the flag. -/
theorem sort_inner_sorted (count i : Nat) (es : Nat → e820entry_t) (swapped : Nat)
    (h : ∀ j, i ≤ j → j + 1 < count → (es j).base ≤ (es (j + 1)).base) :
    sort_inner count i es swapped = (es, swapped) := by
  rw [sort_inner]
  split_ifs with h1 h2
  · have := h i (Nat.le_refl _) (by omega)
    omega
  · exact sort_inner_sorted count (i + 1) es swapped (fun j hj => h j (by omega))
  · rfl
termination_by count - i

theorem sort_outer_sorted (count : Nat) (es : Nat → e820entry_t) (swapped : Nat)
    (h : Ascending count es) : sort_outer count es swapped = es := by
  cases count with
  | zero => rw [sort_outer]
  | succ count =>
    rw [sort_outer]
    split_ifs with h1
    · rw [sort_inner_sorted (count + 1) 0 es 0 (fun j _ hj => h j hj)]
      cases count with
      | zero => rw [sort_outer]
      | succ k =>
        rw [sort_outer]
        simp
    · rfl

theorem scenario_sort (k0 k1 k2 : Nat) :
    (sort_e820 (scenario_map k0 k1 k2)).entries =
      swap_entries (scenario_map k0 k1 k2).entries 0 := by
  have h01 : ((scenario_map k0 k1 k2).entries 0).base >
      ((scenario_map k0 k1 k2).entries (0 + 1)).base := by
    show (0x100000 : Nat) > 0x0
    decide
  have h12 : ¬ ((swap_entries (scenario_map k0 k1 k2).entries 0) (0 + 1)).base >
      ((swap_entries (scenario_map k0 k1 k2).entries 0) (0 + 1 + 1)).base := by
    show ¬ (0x100000 : Nat) > 0x100000000
    decide
  have p1 : sort_inner 3 0 (scenario_map k0 k1 k2).entries 0 =
      (swap_entries (scenario_map k0 k1 k2).entries 0, 1) := by
    rw [sort_inner, if_pos (by decide), if_pos h01, sort_inner, if_pos (by decide),
      if_neg h12, sort_inner, if_neg (by decide)]
  have hs : (scenario_map k0 k1 k2).size = 3 := rfl
  rw [sort_e820]
  simp only
  rw [hs, sort_outer, if_pos (by decide), p1]
  apply sort_outer_sorted
  intro j hj
  have hj0 : j = 0 := by omega
  subst hj0
  show (0x0 : Nat) ≤ 0x100000
  decide

theorem scenario_sorted_ascending :
    ∀ j, j + 1 < (scenario_sorted 1 2 3).size →
      ((scenario_sorted 1 2 3).entries j).base ≤
        ((scenario_sorted 1 2 3).entries (j + 1)).base := by
  intro j hj
  have h3 : j + 1 < 3 := hj
  have hc : j = 0 ∨ j = 1 := by omega
  rcases hc with rfl | rfl <;> decide

/-! ## Further lemmas on the tables built -/

theorem walk_built (PT pc tc dc : Nat) (m : Mem) (hal : PT % 4096 = 0)
    (hfit : PT + 8192 + 4096 * dc + 4096 * tc < 2 ^ 32) (h1 : pc ≤ 512 * tc)
    (h2 : tc ≤ 512 * dc) (h3 : dc ≤ 512) (a : Nat) (ha : a / 4096 < pc) :
    walk (built PT pc tc dc m) PT a =
      (PT + 4096 + 3, PT + 8192 + 4096 * (a / 2 ^ 30) + 3,
        PT + 8192 + 4096 * dc + 4096 * (a / 2 ^ 21) + 3, 4096 * (a / 4096) + 3) := by
  have ht : a / 2 ^ 21 < tc := by omega
  have hd : a / 2 ^ 30 < dc := by omega
  have e4 : read64 (built PT pc tc dc m) (PT + 8 * 0) = PT + 4096 + 3 :=
    built_pml4 PT pc tc dc m hal hfit
  have a4 : entry_address (PT + 4096 + 3) = PT + 4096 := by
    unfold entry_address
    omega
  have e3 := built_pml3 PT pc tc dc m hal hfit h3 (a / 2 ^ 30) hd
  have a3 : entry_address (PT + 8192 + 4096 * (a / 2 ^ 30) + 3) + 8 * (a / 2 ^ 21 % 512) =
      PT + 8192 + 8 * (a / 2 ^ 21) := by
    unfold entry_address
    omega
  have e2 := built_pml2 PT pc tc dc m hal hfit h2 h3 (a / 2 ^ 21) ht
  have a2 : entry_address (PT + 8192 + 4096 * dc + 4096 * (a / 2 ^ 21) + 3) +
      8 * (a / 2 ^ 12 % 512) = PT + 8192 + 4096 * dc + 8 * (a / 4096) := by
    unfold entry_address
    omega
  have e1 := built_pml1 PT pc tc dc m hal hfit h1 h2 h3 (a / 4096) ha
  simp only [walk]
  rw [e4, a4, e3, a3, e2, a2, e1]

theorem page_count_covers (R a : Nat) (hR : R % 4096 = 0) (ha : a < R) :
    a / 4096 < page_count R := by
  unfold page_count
  simp only
  split_ifs <;> omega

theorem clear_tables_apply (PT R : Nat) (m : Mem) (x : Nat)
    (hfit : PT + 8192 + 4096 * dir_count R + 4096 * table_count R < 2 ^ 32) :
    clear_tables PT R m x =
      if (PT ≤ x ∧ x < PT + 8192) ∨
          (PT + 8192 ≤ x ∧ x < PT + 8192 + (4096 * dir_count R) % 2 ^ 16) ∨
          (PT + 8192 + 4096 * dir_count R ≤ x ∧
            x < PT + 8192 + 4096 * dir_count R + (4096 * table_count R) % 2 ^ 16)
      then 0 else m x := by
  have e3 : (PT + 8 * 512) % 2 ^ 32 = PT + 4096 := by omega
  have e2 : (PT + 4096 + 8 * 512) % 2 ^ 32 = PT + 8192 := by omega
  have e1 : (PT + 8192 + (8 * 512 * (dir_count R % 2 ^ 32)) % 2 ^ 32) % 2 ^ 32 =
      PT + 8192 + 4096 * dir_count R := by omega
  have e4 : (8 * 512 * dir_count R) % 2 ^ 64 = 4096 * dir_count R := by omega
  have e5 : (8 * 512 * table_count R) % 2 ^ 64 = 4096 * table_count R := by omega
  have e8 : (8 * 512 : Nat) = 4096 := rfl
  have q1 := Nat.mod_le (4096 * dir_count R) (2 ^ 16)
  have q2 := Nat.mod_le (4096 * table_count R) (2 ^ 16)
  simp only [clear_tables, e3, e2, e1, e4, e5, e8]
  rw [mem_set_apply _ _ _ _ (by omega) (by omega),
    mem_set_apply _ _ _ _ (by omega) (by omega),
    mem_set_apply _ _ _ _ (by omega) (by omega),
    mem_set_apply _ _ _ _ (by omega) (by omega)]
  have e : (4096 : Nat) % 2 ^ 16 = 4096 := rfl
  rw [e]
  split_ifs <;> first | rfl | omega

/-! ## The memory map: scenarios, order independence and frame -/

/-- C12: `get_ram` gives the same extent on any two maps whose valid entries are
permutations of each other; in particular the extent of the sorted map is the extent of the
map as found, which is what `main32` hands to `setup_pages`. -/
theorem get_ram_order_independent (m1 m2 : e820map_t)
    (h : List.Perm (valid_entries m1) (valid_entries m2)) :
    get_ram m1 = get_ram m2 ∧ get_ram (sort_e820 m1) = get_ram m1 ∧
      (∀ (PT : Nat) (s : State), (main32 PT m1 s).2 = setup_pages PT (get_ram m1) s) := by
  have key : ∀ a b : e820map_t, List.Perm (valid_entries a) (valid_entries b) →
      get_ram a = get_ram b := by
    intro a b hab
    rw [get_ram_eq_fold, get_ram_eq_fold]
    exact foldl_max_perm (hab.map entry_end) 0
  have hs : get_ram (sort_e820 m1) = get_ram m1 :=
    key _ _ (sort_outer_reordered m1.size m1.size m1.entries 1 (Nat.le_refl _)).1
  refine ⟨key m1 m2 h, hs, ?_⟩
  intro PT s
  simp only [main32]
  rw [hs]

theorem get_ram_order_independent_witness :
    List.Perm (valid_entries (scenario_map 1 2 3)) (valid_entries (scenario_sorted 1 2 3)) ∧
      get_ram (scenario_map 1 2 3) = get_ram (scenario_sorted 1 2 3) :=
  ⟨List.Perm.swap _ _ _,
    (get_ram_order_independent (scenario_map 1 2 3) (scenario_sorted 1 2 3)
      (List.Perm.swap _ _ _)).1⟩

/-- C13: scenario C.  Whatever the kinds of the three regions, `sort_e820` leaves them in
the order of the bases `0x0`, `0x100000`, `0x100000000`, each record with its own length and
kind, and `get_ram` of the sorted map is `0x110000000`. -/
theorem scenario_c_sorted (k0 k1 k2 : Nat) :
    valid_entries (sort_e820 (scenario_map k0 k1 k2)) =
      [e820entry_t.mk 0x0 0x9FC00 k1, e820entry_t.mk 0x100000 0x7EE0000 k0,
        e820entry_t.mk 0x100000000 0x10000000 k2] ∧
      get_ram (sort_e820 (scenario_map k0 k1 k2)) = 0x110000000 := by
  have hs : (sort_e820 (scenario_map k0 k1 k2)).size = 3 := rfl
  have hv : valid_entries (sort_e820 (scenario_map k0 k1 k2)) =
      [e820entry_t.mk 0x0 0x9FC00 k1, e820entry_t.mk 0x100000 0x7EE0000 k0,
        e820entry_t.mk 0x100000000 0x10000000 k2] := by
    rw [valid_entries, hs, scenario_sort]
    rfl
  refine ⟨hv, ?_⟩
  have a0 : entry_end (e820entry_t.mk 0x0 0x9FC00 k1) = 0x9FC00 := by
    show (0x0 + 0x9FC00) % 2 ^ 64 = 0x9FC00
    decide
  have a1 : entry_end (e820entry_t.mk 0x100000 0x7EE0000 k0) = 0x7FE0000 := by
    show (0x100000 + 0x7EE0000) % 2 ^ 64 = 0x7FE0000
    decide
  have a2 : entry_end (e820entry_t.mk 0x100000000 0x10000000 k2) = 0x110000000 := by
    show (0x100000000 + 0x10000000) % 2 ^ 64 = 0x110000000
    decide
  rw [get_ram_eq_fold, hv, List.map_cons, List.map_cons, List.map_cons, List.map_nil,
    a0, a1, a2]
  decide

/-- C19: `sort_e820` is total; it keeps `size` and every slot at an index from `size` on,
the slots below `size` hold a permutation of what they held, and a map whose valid entries are
already in ascending `base` order comes back with every slot as it was. -/
theorem sort_e820_frame (m : e820map_t) :
    (sort_e820 m).size = m.size ∧
      (∀ j, m.size ≤ j → (sort_e820 m).entries j = m.entries j) ∧
      List.Perm (valid_entries (sort_e820 m)) (valid_entries m) ∧
      ((∀ j, j + 1 < m.size → (m.entries j).base ≤ (m.entries (j + 1)).base) →
        (sort_e820 m).entries = m.entries) := by
  have hR := sort_outer_reordered m.size m.size m.entries 1 (Nat.le_refl _)
  exact ⟨rfl, hR.2.2, hR.1, fun h => sort_outer_sorted m.size m.entries 1 h⟩

theorem sort_e820_frame_witness :
    (∀ j, j + 1 < (scenario_sorted 1 2 3).size →
      ((scenario_sorted 1 2 3).entries j).base ≤
        ((scenario_sorted 1 2 3).entries (j + 1)).base) ∧
      (sort_e820 (scenario_sorted 1 2 3)).entries = (scenario_sorted 1 2 3).entries ∧
      (scenario_sorted 1 2 3).size ≤ 5 ∧
      (sort_e820 (scenario_sorted 1 2 3)).entries 5 = (scenario_sorted 1 2 3).entries 5 :=
  ⟨scenario_sorted_ascending,
    (sort_e820_frame (scenario_sorted 1 2 3)).2.2.2 scenario_sorted_ascending,
    by decide, (sort_e820_frame (scenario_sorted 1 2 3)).2.1 5 (by decide)⟩

/-! ## The page tables: capacity, scenarios, publication, walk and zero fill -/

/-- C14: scenarios A and B.  For 256MB the counts are 65536 pages, 128 tables and 1
directory; for 2GB they are 524288 pages, 1024 tables and 2 directories. -/
theorem scenario_a_b_counts :
    (page_count 268435456 = 65536 ∧ table_count 268435456 = 128 ∧ dir_count 268435456 = 1) ∧
      (page_count 2147483648 = 524288 ∧ table_count 2147483648 = 1024 ∧
        dir_count 2147483648 = 2) := by
  decide

/-- C15: scenario D.  For an extent of zero all three counts are zero; with the tables below
the 4GB line at a 4KB-aligned `PT_LOC`, root slot 0 is then present and writable and holds the
address of the directory-pointer array, whose 512 entries are all zero, whatever memory held
before. -/
theorem scenario_d (PT : Nat) (s : State) (hal : PT % 4096 = 0) (hfit : PT + 8192 < 2 ^ 32) :
    (page_count 0 = 0 ∧ table_count 0 = 0 ∧ dir_count 0 = 0) ∧
    (entry_present (read64 (setup_pages PT 0 s).mem (setup_pages PT 0 s).pml4) ∧
      entry_writable (read64 (setup_pages PT 0 s).mem (setup_pages PT 0 s).pml4) ∧
      entry_address (read64 (setup_pages PT 0 s).mem (setup_pages PT 0 s).pml4) =
        (setup_pages PT 0 s).pml3) ∧
    ∀ d, d < 512 → read64 (setup_pages PT 0 s).mem ((setup_pages PT 0 s).pml3 + 8 * d) = 0 := by
  have c1 : page_count 0 = 0 := by decide
  have c2 : table_count 0 = 0 := by decide
  have c3 : dir_count 0 = 0 := by decide
  have hfit2 : PT + 8192 + 4096 * dir_count 0 + 4096 * table_count 0 < 2 ^ 32 := by
    rw [c2, c3]
    omega
  obtain ⟨p4, p3, _, _⟩ := setup_pages_ptrs PT 0 s hfit2
  rw [p4, p3, setup_pages_mem PT 0 s hfit2, c1, c2, c3]
  refine ⟨⟨rfl, rfl, rfl⟩, ?_, ?_⟩
  · rw [built_pml4 PT 0 0 0 s.mem hal (by omega)]
    simp only [entry_present, entry_writable, entry_address]
    refine ⟨?_, ?_, ?_⟩ <;> omega
  · intro d hd
    apply read64_zero
    intro i hi
    rw [built_unpopulated PT 0 0 0 s.mem (by omega) (by omega) (by omega) (by omega) _
      (by omega) (by omega) (by omega) (by omega)]
    rw [if_pos (by omega)]

theorem scenario_d_witness :
    (0x100000 % 4096 = 0 ∧ 0x100000 + 8192 < 2 ^ 32) ∧
      entry_present (read64 (setup_pages 0x100000 0 stale_state).mem
        (setup_pages 0x100000 0 stale_state).pml4) ∧
      read64 (setup_pages 0x100000 0 stale_state).mem
        ((setup_pages 0x100000 0 stale_state).pml3 + 8 * 511) = 0 :=
  ⟨⟨by decide, by decide⟩,
    (scenario_d 0x100000 stale_state (by decide) (by decide)).2.1.1,
    (scenario_d 0x100000 stale_state (by decide) (by decide)).2.2 511 (by decide)⟩

/-- C16: after `setup_pages` the exported `pml4_ptr32` is `PT_LOC`, the address of the root
array, for every extent and every state found, and so for every memory map given to
`main32`. -/
theorem pml4_ptr32_published (PT R : Nat) (s : State) (m : e820map_t) :
    (setup_pages PT R s).pml4_ptr32 = PT ∧
      (setup_pages PT R s).pml4_ptr32 = (setup_pages PT R s).pml4 ∧
      (main32 PT m s).2.pml4_ptr32 = PT :=
  ⟨rfl, rfl, rfl⟩

/-- C17: with the tables below the 4GB line at a 4KB-aligned `PT_LOC` and an extent of at
most 512GB, the walk for every address whose page index is below `page_count` follows present
entries only and ends at slot `a / 4096` of the page array, which holds the address of the
frame of `a`; when the extent is a multiple of 4096 this covers every address below it. -/
theorem walk_mapped (PT R : Nat) (s : State) (hal : PT % 4096 = 0)
    (hfit : PT + 8192 + 4096 * dir_count R + 4096 * table_count R < 2 ^ 32)
    (hR : R ≤ 2 ^ 39) :
    (∀ a, a / 4096 < page_count R →
      identity_mapped (setup_pages PT R s).mem (setup_pages PT R s).pml4
        (setup_pages PT R s).pml1 a) ∧
    (R % 4096 = 0 → ∀ a, a < R →
      identity_mapped (setup_pages PT R s).mem (setup_pages PT R s).pml4
        (setup_pages PT R s).pml1 a) := by
  have h1 := table_count_ge R
  have h2 := dir_count_ge R
  have h3 := dir_count_le R hR
  have key : ∀ a, a / 4096 < page_count R →
      identity_mapped (setup_pages PT R s).mem (setup_pages PT R s).pml4
        (setup_pages PT R s).pml1 a := by
    intro a ha
    obtain ⟨p4, _, _, p1⟩ := setup_pages_ptrs PT R s hfit
    rw [p4, p1, setup_pages_mem PT R s hfit, identity_mapped,
      walk_built PT _ _ _ s.mem hal hfit h1 h2 h3 a ha]
    simp only [entry_present, entry_writable, entry_address]
    refine ⟨⟨?_, ?_, ?_, ?_⟩, ⟨?_, ?_, ?_, ?_⟩, ?_, ?_⟩ <;> omega
  exact ⟨key, fun hm a ha => key a (page_count_covers R a hm ha)⟩

theorem walk_mapped_witness :
    (0x100000 % 4096 = 0 ∧
      0x100000 + 8192 + 4096 * dir_count 268435456 + 4096 * table_count 268435456 < 2 ^ 32 ∧
      268435456 ≤ 2 ^ 39 ∧ 0x7FFF123 / 4096 < page_count 268435456) ∧
    identity_mapped (setup_pages 0x100000 268435456 zero_state).mem
      (setup_pages 0x100000 268435456 zero_state).pml4
      (setup_pages 0x100000 268435456 zero_state).pml1 0x7FFF123 :=
  ⟨⟨by decide, by decide, by decide, by decide⟩,
    (walk_mapped 0x100000 268435456 zero_state (by decide) (by decide) (by decide)).1
      0x7FFF123 (by decide)⟩

/-- C18: `mem_set` takes its length as a 16-bit value.  With the tables below the 4GB line,
the zero fill that `setup_pages` runs before populating clears the first
`(4096 * table_count) mod 65536` bytes of the page array and the first
`(4096 * dir_count) mod 65536` bytes of the directory array, and leaves the other bytes of
both as found; it clears the whole page array exactly when `table_count <= 15`, and no byte of
it when `table_count` is a positive multiple of 16. -/
theorem zero_fill_truncated (PT R : Nat) (s : State)
    (hfit : PT + 8192 + 4096 * dir_count R + 4096 * table_count R < 2 ^ 32) :
    (setup_pages PT R s).mem =
      set_entry
        (fill_pml3 (setup_pages PT R s).pml2 (setup_pages PT R s).pml3 (dir_count R) 0
          (fill_pml2 (setup_pages PT R s).pml1 (setup_pages PT R s).pml2 (table_count R) 0
            (fill_pml1 (setup_pages PT R s).pml1 (page_count R) 0
              (clear_tables PT R s.mem))))
        (pm_at (setup_pages PT R s).pml4 0) ((setup_pages PT R s).pml3 % 2 ^ 64) ∧
    (∀ (m : Mem) (x : Nat), in_array (setup_pages PT R s).pml1 (512 * table_count R) x →
      clear_tables PT R m x =
        if x < (setup_pages PT R s).pml1 + (4096 * table_count R) % 65536 then 0 else m x) ∧
    (∀ (m : Mem) (x : Nat), in_array (setup_pages PT R s).pml2 (512 * dir_count R) x →
      clear_tables PT R m x =
        if x < (setup_pages PT R s).pml2 + (4096 * dir_count R) % 65536 then 0 else m x) ∧
    ((∀ (m : Mem) (x : Nat), in_array (setup_pages PT R s).pml1 (512 * table_count R) x →
      clear_tables PT R m x = 0) ↔ table_count R ≤ 15) ∧
    (0 < table_count R → table_count R % 16 = 0 →
      ∀ (m : Mem) (x : Nat), in_array (setup_pages PT R s).pml1 (512 * table_count R) x →
        clear_tables PT R m x = m x) := by
  obtain ⟨_, _, p2, p1⟩ := setup_pages_ptrs PT R s hfit
  have q1 := Nat.mod_le (4096 * dir_count R) (2 ^ 16)
  have hpage : ∀ (m : Mem) (x : Nat),
      in_array (setup_pages PT R s).pml1 (512 * table_count R) x →
      clear_tables PT R m x =
        if x < (setup_pages PT R s).pml1 + (4096 * table_count R) % 65536 then 0
        else m x := by
    intro m x hx
    rw [p1] at hx ⊢
    simp only [in_array] at hx
    rw [clear_tables_apply PT R m x hfit]
    split_ifs <;> first | rfl | omega
  refine ⟨rfl, hpage, ?_, ⟨?_, ?_⟩, ?_⟩
  · intro m x hx
    rw [p2] at hx ⊢
    simp only [in_array] at hx
    rw [clear_tables_apply PT R m x hfit]
    split_ifs <;> first | rfl | omega
  · intro hall
    by_contra hgt
    have hin : in_array (setup_pages PT R s).pml1 (512 * table_count R)
        ((setup_pages PT R s).pml1 + 4096 * table_count R - 1) := by
      simp only [in_array]
      omega
    have h0 := hall (fun _ => 1) _ hin
    rw [hpage _ _ hin, if_neg (by omega)] at h0
    exact absurd h0 (by decide)
  · intro hle m x hx
    have hx2 := hx
    simp only [in_array] at hx2
    rw [hpage m x hx, if_pos (by omega)]
  · intro hpos hmul m x hx
    rw [hpage m x hx, if_neg (by omega)]

theorem zero_fill_truncated_witness :
    (0x100000 + 8192 + 4096 * dir_count 0x2000000 + 4096 * table_count 0x2000000 < 2 ^ 32 ∧
      0 < table_count 0x2000000 ∧ table_count 0x2000000 % 16 = 0 ∧
      in_array (setup_pages 0x100000 0x2000000 stale_state).pml1
        (512 * table_count 0x2000000) 0x103000) ∧
    clear_tables 0x100000 0x2000000 stale_state.mem 0x103000 = stale_state.mem 0x103000 :=
  ⟨⟨by decide, by decide, by decide, by decide⟩,
    (zero_fill_truncated 0x100000 0x2000000 stale_state (by decide)).2.2.2.2
      (by decide) (by decide) stale_state.mem 0x103000 (by decide)⟩

end Mbr2gpt
